import Mathlib

/-!
Shallow embedding of the oci-tag-auditor program (src/main.go).

The program scans OCI regions for resources, classifies each resource's
defined tags, and writes CSV report rows to a main sink and up to two
flag-gated exception sinks.  Pure helper functions (`DefinedTagsToString`,
`FreeformTagsToString`, `hasCreatedByTag`, `formatTimeCreated`) are embedded
directly; the per-region task `ExecuteFullSearch` is embedded as a state
machine over an explicit write-outcome environment, with machine time passed
in as an explicit nanosecond count.
-/

/-- A Go `interface` value as it occurs in OCI defined-tag maps: a JSON
scalar (string, number, boolean or null).  Only these arise from the SDK's
JSON decoding of tag values. -/
inductive TagVal where
  | str (s : String)
  | num (n : Int)
  | bool (b : Bool)
  | null
deriving DecidableEq, Repr

/-- One defined-tag namespace: `map[string]interface` as an association list. -/
abbrev TagNamespace := List (String × TagVal)

/-- Go `map[string]map[string]interface`.  `none` models a nil map (Go
distinguishes nil from empty for JSON serialization, while `len` and `range`
treat both alike). -/
abbrev DefinedTags := Option (List (String × TagNamespace))

/-- Go `map[string]string` of freeform tags (nil and empty behave alike
everywhere this program uses them). -/
abbrev FreeformTags := List (String × String)

/-- The namespace list underlying a defined-tags map (`range` view; empty for nil). -/
def dtList (dt : DefinedTags) : List (String × TagNamespace) := dt.getD []

/-- Go `len` of a defined-tags map (0 for nil). -/
def dtLen (dt : DefinedTags) : Nat := (dtList dt).length

/-- ASCII lower-casing of one character (model of Unicode simple folding as
used by `strings.EqualFold`; all keys the program compares are ASCII). -/
def lowerChar (c : Char) : Char :=
  if 65 ≤ c.toNat ∧ c.toNat ≤ 90 then Char.ofNat (c.toNat + 32) else c

/-- Model of Go `strings.EqualFold` (case-insensitive equality). -/
def eqFold (a b : String) : Bool := a.data.map lowerChar == b.data.map lowerChar

/-- Whether a tag value is a non-empty string: the value-side test of the
`CreatedBy` check (`value.(string)` type assertion plus `strVal != ""`). -/
def nonEmptyStringVal : TagVal → Bool
  | .str s => !(s == "")
  | _ => false

/-- src/main.go `hasCreatedByTag`: true iff some namespace holds a key
case-insensitively equal to "CreatedBy" whose value is a non-empty string. -/
def hasCreatedByTag (definedTags : DefinedTags) : Bool :=
  if dtLen definedTags == 0 then false
  else
    (dtList definedTags).any fun nsp =>
      nsp.2.any fun kv => eqFold kv.1 "CreatedBy" && nonEmptyStringVal kv.2

/-- The missing-defined-tags classification condition (src/main.go line 287):
`len(resource.DefinedTags) == 0`. -/
def missingDefinedTags (dt : DefinedTags) : Bool := dtLen dt == 0

/-- The missing-owner classification condition (src/main.go line 296):
`len(resource.DefinedTags) == 0 || !hasCreatedByTag(resource.DefinedTags)`. -/
def missingOwner (dt : DefinedTags) : Bool := dtLen dt == 0 || !hasCreatedByTag dt

/-- Byte-wise (code-point) ≤ on character lists: model of Go's
lexicographic string order used by `sort.Strings` and by `encoding/json`
key sorting. -/
def charListLe : List Char → List Char → Bool
  | [], _ => true
  | _ :: _, [] => false
  | a :: as, b :: bs =>
      if a.toNat < b.toNat then true
      else if b.toNat < a.toNat then false
      else charListLe as bs

/-- Lexicographic ≤ on strings. -/
def strLeB (a b : String) : Bool := charListLe a.data b.data

/-- Lexicographic ≤ on strings as a Prop. -/
def strLeP (a b : String) : Prop := strLeB a b = true

instance : DecidableRel strLeP := fun a b => by unfold strLeP; infer_instance

/-- Model of Go `sort.Strings` (a sort: Go's unstable pattern-defeating
quicksort of strings produces the same output list, since equal elements
are indistinguishable). -/
def sortStrings (l : List String) : List String := List.insertionSort strLeP l

/-- Insert into an association list sorted by key. -/
def insertByKey {α : Type} (x : String × α) : List (String × α) → List (String × α)
  | [] => [x]
  | y :: ys => if strLeB x.1 y.1 then x :: y :: ys else y :: insertByKey x ys

/-- Sort an association list by key: model of `encoding/json`'s sorted map
key output. -/
def sortByKey {α : Type} : List (String × α) → List (String × α)
  | [] => []
  | x :: xs => insertByKey x (sortByKey xs)

/-- JSON string escaping of one character (quote and backslash; the claims
never depend on exotic escapes). -/
def jsonEscapeChar (c : Char) : String :=
  if c = '"' then "\\\"" else if c = '\\' then "\\\\" else String.singleton c

/-- JSON escaping of a string body. -/
def jsonEscape (s : String) : String := String.join (s.data.map jsonEscapeChar)

/-- A JSON string literal. -/
def jsonStr (s : String) : String := "\"" ++ jsonEscape s ++ "\""

/-- JSON form of a tag value. -/
def jsonOfTagVal : TagVal → String
  | .str s => jsonStr s
  | .num n => toString n
  | .bool b => Bool.rec "false" "true" b
  | .null => "null"

/-- A JSON object from already-rendered `"key":value` members. -/
def jsonObj (fields : List String) : String :=
  "\x7b" ++ String.intercalate "," fields ++ "\x7d"

/-- JSON form of one namespace map (keys sorted, as `encoding/json` does). -/
def jsonOfNamespace (nsp : TagNamespace) : String :=
  jsonObj ((sortByKey nsp).map fun kv => jsonStr kv.1 ++ ":" ++ jsonOfTagVal kv.2)

/-- src/main.go `DefinedTagsToString`: `json.Marshal` of the defined-tags
map (nil marshals to `null`); on a marshal error it returns `""`, but every
`TagVal` is marshalable so the error branch is unreachable in the model. -/
def DefinedTagsToString (dt : DefinedTags) : String :=
  match dt with
  | none => "null"
  | some l =>
      jsonObj ((sortByKey l).map fun p => jsonStr p.1 ++ ":" ++ jsonOfNamespace p.2)

/-- src/main.go `FreeformTagsToString`: empty (or nil) map gives `""`;
otherwise the `key=value` strings are sorted and joined with ", ". -/
def FreeformTagsToString (tags : FreeformTags) : String :=
  if tags.length == 0 then ""
  else String.intercalate ", " (sortStrings (tags.map fun kv => kv.1 ++ "=" ++ kv.2))

/-- Nanoseconds per hour (`time.Hour`). -/
def nsPerHour : Int := 3600000000000

/-- Exact value of Go `Duration.Hours()` for a duration of `d` nanoseconds. -/
def hoursOfDur (d : Int) : ℚ := (d : ℚ) / (nsPerHour : ℚ)

/-- Go's `int(f)` conversion from float64: truncation toward zero. -/
def goFloatToInt (q : ℚ) : Int := if 0 ≤ q then ⌊q⌋ else ⌈q⌉

/-- src/main.go line 80: `int(time.Since(createdTime).Hours() / 24)`, with
`time.Since` expanded to `now − created` in nanoseconds. -/
def daysSinceCreation (nowNs createdNs : Int) : Int :=
  goFloatToInt (hoursOfDur (nowNs - createdNs) / 24)

/-- Modelled from the spec for claim comparison: days-since-creation as
"floor((now_UTC − created_UTC) in hours / 24)", i.e. rounding toward
negative infinity. -/
def specDaysSince (nowNs createdNs : Int) : Int :=
  ⌊hoursOfDur (nowNs - createdNs) / 24⌋

/-- Two-digit zero padding. -/
def pad2 (n : Nat) : String := if n < 10 then "0" ++ toString n else toString n

/-- Four-digit zero padding for years in the program's date range. -/
def pad4 (n : Int) : String :=
  if n < 0 then "-" ++ toString (-n)
  else if n < 10 then "000" ++ toString n
  else if n < 100 then "00" ++ toString n
  else if n < 1000 then "0" ++ toString n
  else toString n

/-- Proleptic-Gregorian civil date from days since the Unix epoch
(model of Go `time` package calendar arithmetic). -/
def civilFromDays (z0 : Int) : Int × Nat × Nat :=
  let z := z0 + 719468
  let era := Int.fdiv z 146097
  let doe := (z - era * 146097).toNat
  let yoe := (doe - doe / 1460 + doe / 36524 - doe / 146096) / 365
  let doy := doe - (365 * yoe + yoe / 4 - yoe / 100)
  let mp := (5 * doy + 2) / 153
  let d := doy - (153 * mp + 2) / 5 + 1
  let m := if mp < 10 then mp + 3 else mp - 9
  ((yoe : Int) + era * 400 + (if m ≤ 2 then 1 else 0), m, d)

/-- UTC calendar fields (year, month, day, hour, minute, second) of an epoch
time given in nanoseconds. -/
def civilParts (ns : Int) : Int × Nat × Nat × Nat × Nat × Nat :=
  let secs := Int.fdiv ns 1000000000
  let days := Int.fdiv secs 86400
  let sod := (secs - days * 86400).toNat
  let ymd := civilFromDays days
  (ymd.1, ymd.2.1, ymd.2.2, sod / 3600, sod % 3600 / 60, sod % 60)

/-- Go `createdTime.UTC().Format("2006-01-02 15:04:05")`. -/
def formatUTC (ns : Int) : String :=
  let p := civilParts ns
  pad4 p.1 ++ "-" ++ pad2 p.2.1 ++ "-" ++ pad2 p.2.2.1 ++ " " ++
    pad2 p.2.2.2.1 ++ ":" ++ pad2 p.2.2.2.2.1 ++ ":" ++ pad2 p.2.2.2.2.2

/-- src/main.go line 149: `time.Now().UTC().Format("20060102_150405")`,
evaluated at the nanosecond epoch time a region task starts. -/
def timestampOf (ns : Int) : String :=
  let p := civilParts ns
  pad4 p.1 ++ pad2 p.2.1 ++ pad2 p.2.2.1 ++ "_" ++
    pad2 p.2.2.2.1 ++ pad2 p.2.2.2.2.1 ++ pad2 p.2.2.2.2.2

/-- src/main.go `formatTimeCreated`: `none` models a nil `*common.SDKTime`;
returns the formatted UTC time and the days-since-creation decimal string. -/
def formatTimeCreated (nowNs : Int) (sdkTime : Option Int) : String × String :=
  match sdkTime with
  | none => ("N/A", "N/A")
  | some t => (formatUTC t, toString (daysSinceCreation nowNs t))

/-- One item of a `SearchResources` response page (`ResourceSummary`); `none`
models a nil pointer field. -/
structure Resource where
  displayName : Option String
  resourceType : Option String
  identifier : Option String
  compartmentId : Option String
  lifecycleState : Option String
  timeCreated : Option Int
  availabilityDomain : Option String
  definedTags : DefinedTags
  freeformTags : FreeformTags
deriving DecidableEq, Repr

/-- src/main.go `getStringValue`: nil string pointer formats as `""`. -/
def getStringValue (ptr : Option String) : String := ptr.getD ""

/-- The fixed 11-column CSV header (src/main.go lines 210-222). -/
def headers : List String :=
  ["Region", "Display Name", "Resource Type", "Identifier", "Compartment ID",
   "Lifecycle State", "Time Created (UTC)", "Days Since Creation",
   "Availability Domain", "Defined Tags", "Freeform Tags"]

/-- The report row built for one resource (src/main.go lines 265-278). -/
def makeRow (nowNs : Int) (sect : String) (r : Resource) : List String :=
  let ft := formatTimeCreated nowNs r.timeCreated
  [sect,
   getStringValue r.displayName,
   getStringValue r.resourceType,
   getStringValue r.identifier,
   getStringValue r.compartmentId,
   getStringValue r.lifecycleState,
   ft.1,
   ft.2,
   getStringValue r.availabilityDomain,
   DefinedTagsToString r.definedTags,
   FreeformTagsToString r.freeformTags]

/-- The two CLI flags (`--missing-tags`, `--no-owner`). -/
structure Flags where
  missingTags : Bool
  noOwner : Bool
deriving DecidableEq, Repr

/-- Environment of per-row write outcomes, indexed by the record's position
in the region's record stream: `true` means the `csv.Writer.Write` call for
that record on that sink succeeds. -/
structure WriteEnv where
  mainRowOk : Nat → Bool
  missingRowOk : Nat → Bool
  noOwnerRowOk : Nat → Bool

/-- Environment of setup outcomes: file creations and header writes. -/
structure SetupEnv where
  mainCreateOk : Bool
  missingCreateOk : Bool
  noOwnerCreateOk : Bool
  mainHeaderOk : Bool
  missingHeaderOk : Bool
  noOwnerHeaderOk : Bool
deriving DecidableEq, Repr

/-- State of one region task: contents of each sink (`none` = file not
created) and the three counters. -/
structure SinkState where
  mainRows : List (List String)
  missingRows : Option (List (List String))
  noOwnerRows : Option (List (List String))
  totalResources : Nat
  missingTagsCount : Nat
  noOwnerCount : Nat
deriving DecidableEq, Repr

/-- The empty task state before any file is created. -/
def initState : SinkState :=
  { mainRows := [], missingRows := none, noOwnerRows := none,
    totalResources := 0, missingTagsCount := 0, noOwnerCount := 0 }

/-- Append a row to the main sink. -/
def appendMain (row : List String) (st : SinkState) : SinkState :=
  { st with mainRows := st.mainRows ++ [row] }

/-- Append a row to the missing-tags sink (no-op if it was never created). -/
def appendMissing (row : List String) (st : SinkState) : SinkState :=
  { st with missingRows := st.missingRows.map (· ++ [row]) }

/-- Append a row to the no-owner sink (no-op if it was never created). -/
def appendNoOwner (row : List String) (st : SinkState) : SinkState :=
  { st with noOwnerRows := st.noOwnerRows.map (· ++ [row]) }

/-- The loop body for one resource (src/main.go lines 264-305).  A failed
main-sink write executes `continue`: nothing further happens for the record
(no exception-sink writes, no counter increments).  A failed exception-sink
write skips that row and that sink's counter only. -/
def processRecord (fl : Flags) (env : WriteEnv) (idx : Nat) (nowNs : Int)
    (sect : String) (r : Resource) (st : SinkState) : SinkState :=
  let row := makeRow nowNs sect r
  if !env.mainRowOk idx then st
  else
    let st1 := appendMain row st
    let st2 :=
      if fl.missingTags && dtLen r.definedTags == 0 then
        if env.missingRowOk idx then
          let sa := appendMissing row st1
          { sa with missingTagsCount := sa.missingTagsCount + 1 }
        else st1
      else st1
    let st3 :=
      if fl.noOwner && (dtLen r.definedTags == 0 || !hasCreatedByTag r.definedTags) then
        if env.noOwnerRowOk idx then
          let sa := appendNoOwner row st2
          { sa with noOwnerCount := sa.noOwnerCount + 1 }
        else st2
      else st2
    { st3 with totalResources := st3.totalResources + 1 }

/-- Process the items of one page in order, threading the stream index. -/
def processAll (fl : Flags) (env : WriteEnv) (nowNs : Int) (sect : String) :
    List Resource → Nat → SinkState → SinkState
  | [], _, st => st
  | r :: rs, idx, st =>
      processAll fl env nowNs sect rs (idx + 1) (processRecord fl env idx nowNs sect r st)

/-- One response of the search API: a page of items and an optional
continuation cursor (`OpcNextPage`). -/
structure Page where
  items : List Resource
  nextCursor : Option String
deriving DecidableEq, Repr

/-- Observable events of the page loop: requests (with the cursor they
carry) and sleeps (milliseconds). -/
inductive Event where
  | request (cursor : Option String)
  | sleepMs (ms : Nat)
deriving DecidableEq, Repr

/-- The page loop (src/main.go lines 257-312): each iteration issues one
request (the supplied page list holds the successive responses), processes
the items, then either terminates (no cursor) or sleeps 200ms and continues
with the response's cursor.  An exhausted response list models a request
that fails: the loop returns with the state written so far. -/
def pageLoop (fl : Flags) (env : WriteEnv) (nowNs : Int) (sect : String) :
    List Page → Option String → Nat → SinkState → List Event × SinkState
  | [], cur, _, st => ([Event.request cur], st)
  | p :: ps, cur, idx, st =>
      let st1 := processAll fl env nowNs sect p.items idx st
      match p.nextCursor with
      | none => ([Event.request cur], st1)
      | some c =>
          let rest := pageLoop fl env nowNs sect ps (some c) (idx + p.items.length) st1
          (Event.request cur :: Event.sleepMs 200 :: rest.1, rest.2)

/-- Main report path (src/main.go line 171). -/
def mainPath (sect ts : String) : String :=
  "data/" ++ sect ++ "_resources_" ++ ts ++ ".csv"

/-- Missing-tags report path (src/main.go line 188). -/
def missingTagsPath (sect ts : String) : String :=
  "data/" ++ sect ++ "_missing_tags_" ++ ts ++ ".csv"

/-- No-owner report path (src/main.go line 199). -/
def noOwnerPath (sect ts : String) : String :=
  "data/" ++ sect ++ "_no_owner_" ++ ts ++ ".csv"

/-- The files left on disk by a task state: each created sink with its rows. -/
def filesOf (sect ts : String) (st : SinkState) : List (String × List (List String)) :=
  (mainPath sect ts, st.mainRows) ::
    ((match st.missingRows with
      | some rs => [(missingTagsPath sect ts, rs)]
      | none => []) ++
     (match st.noOwnerRows with
      | some rs => [(noOwnerPath sect ts, rs)]
      | none => []))

/-- The sink state at the exit point of src/main.go `ExecuteFullSearch`,
after the main file has been created: exception-sink creation, header
writes (each early `return` exits with the state reached so far), then the
page loop. -/
def taskState (fl : Flags) (senv : SetupEnv) (env : WriteEnv) (nowNs : Int)
    (sect : String) (pages : List Page) : SinkState :=
  let st0 := initState
  if fl.missingTags && !senv.missingCreateOk then st0
  else
    let st1 := if fl.missingTags then { st0 with missingRows := some [] } else st0
    if fl.noOwner && !senv.noOwnerCreateOk then st1
    else
      let st2 := if fl.noOwner then { st1 with noOwnerRows := some [] } else st1
      if !senv.mainHeaderOk then st2
      else
        let st3 := appendMain headers st2
        if fl.missingTags && !senv.missingHeaderOk then st3
        else
          let st4 := if fl.missingTags then appendMissing headers st3 else st3
          if fl.noOwner && !senv.noOwnerHeaderOk then st4
          else
            let st5 := if fl.noOwner then appendNoOwner headers st4 else st4
            (pageLoop fl env nowNs sect pages none 0 st5).2

/-- src/main.go `ExecuteFullSearch` for one region: returns the files on
disk at exit (every exit path leaves exactly the files created so far, with
the rows successfully written to them).  Client/config construction
failures, which abort before any file exists, are outside the model. -/
def runTask (fl : Flags) (senv : SetupEnv) (env : WriteEnv) (nowNs : Int)
    (sect : String) (pages : List Page) : List (String × List (List String)) :=
  if !senv.mainCreateOk then []
  else filesOf sect (timestampOf nowNs) (taskState fl senv env nowNs sect pages)

/-- All-successful write environment. -/
def envAllOk : WriteEnv :=
  { mainRowOk := fun _ => true, missingRowOk := fun _ => true,
    noOwnerRowOk := fun _ => true }

/-- All-successful setup environment. -/
def senvAllOk : SetupEnv :=
  { mainCreateOk := true, missingCreateOk := true, noOwnerCreateOk := true,
    mainHeaderOk := true, missingHeaderOk := true, noOwnerHeaderOk := true }

/-- Both flags off (the defaults). -/
def flagsNone : Flags := { missingTags := false, noOwner := false }

/-- Both flags on. -/
def flagsBoth : Flags := { missingTags := true, noOwner := true }

/-- A resource with nil defined tags (classified missing-tags and no-owner). -/
def resNilTags : Resource :=
  { displayName := some "vm1", resourceType := some "Instance",
    identifier := some "ocid1", compartmentId := some "c1",
    lifecycleState := some "RUNNING", timeCreated := none,
    availabilityDomain := none, definedTags := none, freeformTags := [] }

/-- Environment where main-sink row writes fail and exception-sink row
writes succeed. -/
def envMainFail : WriteEnv :=
  { mainRowOk := fun _ => false, missingRowOk := fun _ => true,
    noOwnerRowOk := fun _ => true }

/-- A task state just after a successful setup with both exception sinks
active (headers written everywhere). -/
def stReady : SinkState :=
  { mainRows := [headers], missingRows := some [headers],
    noOwnerRows := some [headers], totalResources := 0,
    missingTagsCount := 0, noOwnerCount := 0 }

/-- The recorded contents of the file at a path. -/
def fileAt (fs : List (String × List (List String))) (p : String) :
    Option (List (List String)) := List.lookup p fs

/-- Flags with only --missing-tags set. -/
def flagsMT : Flags := { missingTags := true, noOwner := false }

/-- Setup environment where creating the missing-tags file fails. -/
def senvMissingFail : SetupEnv := { senvAllOk with missingCreateOk := false }

/-- A one-page record stream holding a single nil-tags resource. -/
def pg1 : List Page := [⟨[resNilTags], none⟩]

/-- A well-formed sink: the header first, then only resource data rows. -/
def sinkGood (nowNs : Int) (sect : String) (rows : List (List String)) : Prop :=
  ∃ t, rows = headers :: t ∧ ∀ row ∈ t, ∃ r : Resource, row = makeRow nowNs sect r

/-- All created sinks of a task state are well-formed. -/
def stateGood (nowNs : Int) (sect : String) (st : SinkState) : Prop :=
  sinkGood nowNs sect st.mainRows ∧
  (∀ rs, st.missingRows = some rs → sinkGood nowNs sect rs) ∧
  (∀ rs, st.noOwnerRows = some rs → sinkGood nowNs sect rs)

/-! ## Order lemmas for the string sort -/

theorem charListLe_total : ∀ a b : List Char, charListLe a b = true ∨ charListLe b a = true := by
  intro a
  induction a with
  | nil => intro b; left; rfl
  | cons x xs ih =>
    intro b
    cases b with
    | nil => right; rfl
    | cons y ys =>
      by_cases h1 : x.toNat < y.toNat
      · left; simp [charListLe, h1]
      · by_cases h2 : y.toNat < x.toNat
        · right; simp [charListLe, h1, h2]
        · rcases ih ys with h | h
          · left; simp [charListLe, h1, h2, h]
          · right; simp [charListLe, h1, h2, h]

theorem charListLe_trans :
    ∀ a b c : List Char, charListLe a b = true → charListLe b c = true →
      charListLe a c = true := by
  intro a
  induction a with
  | nil => intro b c _ _; rfl
  | cons x xs ih =>
    intro b c hab hbc
    cases b with
    | nil => simp [charListLe] at hab
    | cons y ys =>
      cases c with
      | nil => simp [charListLe] at hbc
      | cons z zs =>
        simp only [charListLe] at hab hbc ⊢
        by_cases hxy : x.toNat < y.toNat
        · by_cases hyz : y.toNat < z.toNat
          · simp [Nat.lt_trans hxy hyz]
          · by_cases hzy : z.toNat < y.toNat
            · simp [hyz, hzy] at hbc
            · have hxz : x.toNat < z.toNat := by omega
              simp [hxz]
        · by_cases hyx : y.toNat < x.toNat
          · simp [hxy, hyx] at hab
          · have hxy2 : x.toNat = y.toNat := by omega
            by_cases hyz : y.toNat < z.toNat
            · simp [hxy2 ▸ hyz]
            · by_cases hzy : z.toNat < y.toNat
              · simp [hyz, hzy] at hbc
              · simp [hxy, hyx] at hab
                simp [hyz, hzy] at hbc
                have hxz : ¬ x.toNat < z.toNat := by omega
                have hzx : ¬ z.toNat < x.toNat := by omega
                simp [hxz, hzx, ih ys zs hab hbc]

theorem charListLe_antisymm :
    ∀ a b : List Char, charListLe a b = true → charListLe b a = true → a = b := by
  intro a
  induction a with
  | nil =>
    intro b _ hba
    cases b with
    | nil => rfl
    | cons y ys => simp [charListLe] at hba
  | cons x xs ih =>
    intro b hab hba
    cases b with
    | nil => simp [charListLe] at hab
    | cons y ys =>
      simp only [charListLe] at hab hba
      by_cases hxy : x.toNat < y.toNat
      · have : ¬ y.toNat < x.toNat := by omega
        simp [hxy, this] at hba
      · by_cases hyx : y.toNat < x.toNat
        · simp [hxy, hyx] at hab
        · simp [hxy, hyx] at hab hba
          have hn : x.toNat = y.toNat := by omega
          have hx : x = y := Char.ext (UInt32.ext hn)
          rw [hx, ih ys hab hba]

instance : IsTotal String strLeP := ⟨fun a b => charListLe_total a.data b.data⟩

instance : IsTrans String strLeP :=
  ⟨fun _ _ _ hab hbc => charListLe_trans _ _ _ hab hbc⟩

instance : IsAntisymm String strLeP :=
  ⟨fun _ _ hab hba => String.ext (charListLe_antisymm _ _ hab hba)⟩

theorem sortStrings_eq_of_perm {l1 l2 : List String} (h : l1.Perm l2) :
    sortStrings l1 = sortStrings l2 :=
  List.eq_of_perm_of_sorted
    ((List.perm_insertionSort strLeP l1).trans (h.trans (List.perm_insertionSort strLeP l2).symm))
    (List.sorted_insertionSort strLeP l1) (List.sorted_insertionSort strLeP l2)

/-! ## Claim theorems -/

theorem nonEmptyStringVal_eq_false_iff (v : TagVal) :
    nonEmptyStringVal v = false ↔ ∀ s : String, v = TagVal.str s → s = "" := by
  cases v <;> simp [nonEmptyStringVal]

theorem hasCreatedByTag_eq_false_iff (dt : DefinedTags) :
    hasCreatedByTag dt = false ↔
      ∀ nsp ∈ dtList dt, ∀ kv ∈ nsp.2,
        eqFold kv.1 "CreatedBy" = true → ∀ s : String, kv.2 = TagVal.str s → s = "" := by
  unfold hasCreatedByTag
  by_cases h : dtList dt = []
  · simp [dtLen, h]
  · have h0 : (dtLen dt == 0) = false := by simp [dtLen, h]
    simp only [h0, Bool.false_eq_true, if_false, ← Bool.not_eq_true, Bool.not_not,
      List.any_eq_false, Bool.not_eq_true]
    constructor
    · intro hno nsp hnsp kv hkv hkey
      rw [← nonEmptyStringVal_eq_false_iff]
      have h3 := hno nsp hnsp kv hkv
      rcases Bool.and_eq_false_iff.mp h3 with hf | hv
      · rw [hkey] at hf; exact absurd hf (by simp)
      · exact hv
    · intro hall nsp hnsp kv hkv
      rcases Bool.eq_false_or_eq_true (eqFold kv.1 "CreatedBy") with ht | hf
      · rw [Bool.and_eq_false_iff]
        exact Or.inr ((nonEmptyStringVal_eq_false_iff kv.2).mpr (hall nsp hnsp kv hkv ht))
      · simp [hf]

/-- C4: for every defined-tags mapping, `missingOwner` is true iff the
mapping is empty or no namespace contains a key case-insensitively equal to
"CreatedBy" whose value is a non-empty string; values that are not
non-empty strings never count, and the namespace name is irrelevant (the
characterization never inspects it). -/
theorem missingOwner_characterization (dt : DefinedTags) :
    missingOwner dt = true ↔
      (dtList dt = [] ∨
        ∀ nsp ∈ dtList dt, ∀ kv ∈ nsp.2,
          eqFold kv.1 "CreatedBy" = true → ∀ s : String, kv.2 = TagVal.str s → s = "") := by
  by_cases h : dtList dt = []
  · simp [missingOwner, dtLen, h]
  · have h0 : (dtLen dt == 0) = false := by simp [dtLen, h]
    rw [missingOwner, h0]
    simp only [Bool.false_or, Bool.not_eq_true', hasCreatedByTag_eq_false_iff]
    exact (or_iff_right h).symm

/-- C9: freeform-tag serialization joins the `key=value` strings sorted
lexicographically with ", ": the empty mapping yields `""`, the mapping
b↦2, a↦1 yields "a=1, b=2", the sorted parts are a sorted permutation of
the input's `key=value` strings, and the result is invariant under any
reordering of the mapping (so map iteration order is irrelevant). -/
theorem freeformTags_serialization (l1 l2 : FreeformTags) (hp : l1.Perm l2) :
    FreeformTagsToString l1 = FreeformTagsToString l2 ∧
    FreeformTagsToString [] = "" ∧
    FreeformTagsToString [("b", "2"), ("a", "1")] = "a=1, b=2" ∧
    List.Sorted strLeP (sortStrings (l1.map fun kv => kv.1 ++ "=" ++ kv.2)) ∧
    (sortStrings (l1.map fun kv => kv.1 ++ "=" ++ kv.2)).Perm
      (l1.map fun kv => kv.1 ++ "=" ++ kv.2) ∧
    (l1 ≠ [] → FreeformTagsToString l1 =
      String.intercalate ", " (sortStrings (l1.map fun kv => kv.1 ++ "=" ++ kv.2))) := by
  have hl := hp.length_eq
  have hsort := sortStrings_eq_of_perm (hp.map fun kv => kv.1 ++ "=" ++ kv.2)
  refine ⟨?_, rfl, by decide, List.sorted_insertionSort strLeP _,
    List.perm_insertionSort strLeP _, ?_⟩
  · unfold FreeformTagsToString
    rw [hl, hsort]
  · intro h
    have hg : (l1.length == 0) = false := by simp [List.length_eq_zero, h]
    simp [FreeformTagsToString, hg]

/-- C9 witness: the permutation-invariance applied to the concrete mapping
b↦2, a↦1 against its reordering. -/
theorem freeformTags_serialization_witness :
    FreeformTagsToString [("b", "2"), ("a", "1")] =
      FreeformTagsToString [("a", "1"), ("b", "2")] :=
  (freeformTags_serialization [("b", "2"), ("a", "1")] [("a", "1"), ("b", "2")]
    (by decide)).1

/-- C10: a nil defined-tags mapping serializes to the four-character string
"null" and a present-but-empty mapping to the JSON object braces; the
defined-tags field of every report row (index 9) is exactly this
serialization; and the serialization is never the empty string (in the
model every tag value is JSON-marshalable, so the error branch that alone
returns `""` is unreachable). -/
theorem definedTags_serialization :
    DefinedTagsToString none = "null" ∧
    ("null" : String).data.length = 4 ∧
    DefinedTagsToString (some []) = "\x7b\x7d" ∧
    (∀ (nowNs : Int) (sect : String) (r : Resource),
      (makeRow nowNs sect r)[9]? = some (DefinedTagsToString r.definedTags)) ∧
    ∀ dt : DefinedTags, DefinedTagsToString dt ≠ "" := by
  refine ⟨rfl, rfl, by decide, fun nowNs sect r => rfl, ?_⟩
  intro dt
  cases dt with
  | none => decide
  | some l =>
    intro hEq
    have h2 := congrArg String.data hEq
    simp [DefinedTagsToString, jsonObj, String.data_append] at h2

theorem processRecord_skip (fl : Flags) (env : WriteEnv) (idx : Nat)
    (nowNs : Int) (sect : String) (r : Resource) (st : SinkState)
    (h : env.mainRowOk idx = false) :
    processRecord fl env idx nowNs sect r st = st := by
  simp [processRecord, h]

theorem processRecord_total (fl : Flags) (env : WriteEnv) (idx : Nat)
    (nowNs : Int) (sect : String) (r : Resource) (st : SinkState)
    (h : env.mainRowOk idx = true) :
    (processRecord fl env idx nowNs sect r st).totalResources =
      st.totalResources + 1 := by
  unfold processRecord
  rw [h]
  simp only [Bool.not_true, Bool.false_eq_true, if_false]
  split_ifs <;> rfl

theorem processAll_total (fl : Flags) (env : WriteEnv) (nowNs : Int)
    (sect : String) (h : ∀ i, env.mainRowOk i = true) :
    ∀ (rs : List Resource) (idx : Nat) (st : SinkState),
      (processAll fl env nowNs sect rs idx st).totalResources =
        st.totalResources + rs.length := by
  intro rs
  induction rs with
  | nil => intro idx st; rfl
  | cons r rest ih =>
    intro idx st
    show (processAll fl env nowNs sect rest (idx + 1)
      (processRecord fl env idx nowNs sect r st)).totalResources = _
    rw [ih, processRecord_total fl env idx nowNs sect r st (h idx)]
    simp [List.length_cons]
    omega

/-- C1 counterexample: with both exception sinks active, when the main-sink
write of a record with nil defined tags fails, the loop's `continue` ends
that record: the state is completely unchanged, so the missing-tags sink
does not receive the row and `totalResources` is not incremented — against
the claim that the exception sinks still receive the row and the counter
increments once per record regardless of per-sink write outcomes. -/
theorem mainWriteFailure_counterexample :
    processRecord flagsBoth envMainFail 0 0 "r1" resNilTags stReady = stReady ∧
    (processRecord flagsBoth envMainFail 0 0 "r1" resNilTags stReady).totalResources ≠
      stReady.totalResources + 1 ∧
    (processRecord flagsBoth envMainFail 0 0 "r1" resNilTags stReady).missingRows =
      some [headers] :=
  ⟨rfl, by decide, rfl⟩

/-- C1 amended: a failed main-sink write is logged and ends processing of
that record (Go `continue`): the task state is unchanged — the exception
sinks do not receive the row and `totalResources` is not incremented for
that record — and the scan proceeds with subsequent records; when the
main-sink write succeeds, `totalResources` is incremented exactly once for
the record regardless of the exception sinks' write outcomes. -/
theorem mainWriteFailure_amended (fl : Flags) (env : WriteEnv) (idx : Nat)
    (nowNs : Int) (sect : String) (r : Resource) (st : SinkState) :
    (env.mainRowOk idx = false → processRecord fl env idx nowNs sect r st = st) ∧
    (env.mainRowOk idx = true →
      (processRecord fl env idx nowNs sect r st).totalResources =
        st.totalResources + 1) :=
  ⟨processRecord_skip fl env idx nowNs sect r st,
   processRecord_total fl env idx nowNs sect r st⟩

/-- C1 witness: the amended facts at a concrete record and state. -/
theorem mainWriteFailure_amended_witness :
    (envMainFail.mainRowOk 0 = false ∧
      processRecord flagsBoth envMainFail 0 0 "r1" resNilTags stReady = stReady) ∧
    (envAllOk.mainRowOk 0 = true ∧
      (processRecord flagsBoth envAllOk 0 0 "r1" resNilTags stReady).totalResources =
        stReady.totalResources + 1) :=
  ⟨⟨rfl, (mainWriteFailure_amended flagsBoth envMainFail 0 0 "r1" resNilTags stReady).1 rfl⟩,
   ⟨rfl, (mainWriteFailure_amended flagsBoth envAllOk 0 0 "r1" resNilTags stReady).2 rfl⟩⟩

/-- C3 counterexample: for a creation timestamp 12 hours in the future
(now = 0), the claim's floor-toward-negative-infinity formula gives −1
while the code renders "0": Go's float-to-int conversion truncates toward
zero, so the two disagree. -/
theorem daysSince_counterexample :
    (formatTimeCreated 0 (some 43200000000000)).2 = "0" ∧
    specDaysSince 0 43200000000000 = -1 ∧
    daysSinceCreation 0 43200000000000 ≠ specDaysSince 0 43200000000000 := by
  have h1 : daysSinceCreation 0 43200000000000 = 0 := by
    norm_num [daysSinceCreation, goFloatToInt, hoursOfDur, nsPerHour]
  have h2 : specDaysSince 0 43200000000000 = -1 := by
    norm_num [specDaysSince, hoursOfDur, nsPerHour]
  refine ⟨?_, h2, ?_⟩
  · show toString (daysSinceCreation 0 43200000000000) = "0"
    rw [h1]; rfl
  · rw [h1, h2]; decide

/-- C3 amended: the rendered days-since-creation field is the decimal
string of Go's float-to-int conversion of hours/24, which truncates toward
zero (floor for values ≥ 0, ceiling for negative values); it equals the
floor formula whenever the timestamp is not in the future, and it is
negative — not clamped — when the timestamp lies more than a day in the
future (48 hours in the future gives −2). -/
theorem daysSince_truncation (nowNs createdNs : Int) (h : createdNs ≤ nowNs) :
    daysSinceCreation nowNs createdNs = specDaysSince nowNs createdNs ∧
    (∀ (n c : Int), (formatTimeCreated n (some c)).2 = toString (daysSinceCreation n c)) ∧
    (∀ q : ℚ, goFloatToInt q = if 0 ≤ q then ⌊q⌋ else ⌈q⌉) ∧
    daysSinceCreation 0 172800000000000 = -2 := by
  refine ⟨?_, fun n c => rfl, fun q => rfl, ?_⟩
  · have hd : (0 : ℚ) ≤ ((nowNs - createdNs : Int) : ℚ) := by
      exact_mod_cast Int.sub_nonneg.mpr h
    have hq : (0 : ℚ) ≤ hoursOfDur (nowNs - createdNs) / 24 := by
      apply div_nonneg _ (by norm_num : (0 : ℚ) ≤ 24)
      unfold hoursOfDur
      exact div_nonneg hd (by norm_num [nsPerHour])
    unfold daysSinceCreation specDaysSince goFloatToInt
    rw [if_pos hq]
  · norm_num [daysSinceCreation, goFloatToInt, hoursOfDur, nsPerHour]
    exact Int.ceil_intCast (-2)

/-- C3 witness: the floor agreement applied at a concrete past timestamp. -/
theorem daysSince_truncation_witness :
    (2 : Int) ≤ 90000000000000 ∧
    daysSinceCreation 90000000000000 2 = specDaysSince 90000000000000 2 :=
  ⟨by decide, (daysSince_truncation 90000000000000 2 (by decide)).1⟩

/-- C6: `missingDefinedTags` is true exactly when the defined-tags mapping
is empty; and with the missing-tags sink active, a record with empty
defined tags whose writes succeed is appended both to the main sink and to
the missing-tags sink, the identical row value going to each. -/
theorem missingTags_bothSinks :
    (∀ dt : DefinedTags, missingDefinedTags dt = true ↔ dtList dt = []) ∧
    (∀ (fl : Flags) (env : WriteEnv) (idx : Nat) (nowNs : Int) (sect : String)
       (r : Resource) (st : SinkState) (rs : List (List String)),
      fl.missingTags = true → missingDefinedTags r.definedTags = true →
      env.mainRowOk idx = true → env.missingRowOk idx = true →
      st.missingRows = some rs →
      (processRecord fl env idx nowNs sect r st).mainRows =
        st.mainRows ++ [makeRow nowNs sect r] ∧
      (processRecord fl env idx nowNs sect r st).missingRows =
        some (rs ++ [makeRow nowNs sect r])) := by
  constructor
  · intro dt
    simp [missingDefinedTags, dtLen, List.length_eq_zero]
  · intro fl env idx nowNs sect r st rs hfl hdt hm hmi hsink
    rw [missingDefinedTags] at hdt
    unfold processRecord
    rw [hm]
    simp only [Bool.not_true, Bool.false_eq_true, if_false, hfl, hdt, Bool.and_self,
      if_true, hmi]
    split_ifs <;>
      simp [appendMain, appendMissing, appendNoOwner, hsink]

/-- C6 witness: the both-sinks fact at a concrete empty-tags record. -/
theorem missingTags_bothSinks_witness :
    (processRecord flagsBoth envAllOk 0 0 "r1" resNilTags stReady).mainRows =
      stReady.mainRows ++ [makeRow 0 "r1" resNilTags] ∧
    (processRecord flagsBoth envAllOk 0 0 "r1" resNilTags stReady).missingRows =
      some ([headers] ++ [makeRow 0 "r1" resNilTags]) :=
  missingTags_bothSinks.2 flagsBoth envAllOk 0 0 "r1" resNilTags stReady [headers]
    rfl rfl rfl rfl rfl

/-- C7: a first response without a continuation cursor produces exactly one
request and ends the loop, with `totalResources` grown by exactly the
page's item count when the main-sink writes succeed; a response carrying a
cursor is followed by a 200ms sleep and then a request carrying exactly
that cursor. -/
theorem pagination_behavior :
    (∀ (fl : Flags) (env : WriteEnv) (nowNs : Int) (sect : String) (p : Page)
       (st : SinkState) (idx : Nat), p.nextCursor = none →
      (pageLoop fl env nowNs sect [p] none idx st).1 = [Event.request none] ∧
      ((∀ i, env.mainRowOk i = true) →
        (pageLoop fl env nowNs sect [p] none idx st).2.totalResources =
          st.totalResources + p.items.length)) ∧
    (∀ (fl : Flags) (env : WriteEnv) (nowNs : Int) (sect : String) (p q : Page)
       (ps : List Page) (cur : Option String) (idx : Nat) (st : SinkState)
       (c : String), p.nextCursor = some c →
      ∃ tail : List Event,
        (pageLoop fl env nowNs sect (p :: q :: ps) cur idx st).1 =
          Event.request cur :: Event.sleepMs 200 ::
            Event.request (some c) :: tail) := by
  constructor
  · intro fl env nowNs sect p st idx hp
    constructor
    · simp [pageLoop, hp]
    · intro hok
      simp only [pageLoop, hp]
      exact processAll_total fl env nowNs sect hok p.items idx st
  · intro fl env nowNs sect p q ps cur idx st c hp
    cases hq : q.nextCursor with
    | none => exact ⟨[], by simp [pageLoop, hp, hq]⟩
    | some c2 =>
      simp only [pageLoop, hp, hq]
      exact ⟨_, rfl⟩

/-- C7 witness: a single cursor-less page of two items yields one request
and a total of two resources. -/
theorem pagination_behavior_witness :
    (pageLoop flagsNone envAllOk 0 "r" [⟨[resNilTags, resNilTags], none⟩]
        none 0 initState).1 = [Event.request none] ∧
    (pageLoop flagsNone envAllOk 0 "r" [⟨[resNilTags, resNilTags], none⟩]
        none 0 initState).2.totalResources = initState.totalResources + 2 := by
  have h := pagination_behavior.1 flagsNone envAllOk 0 "r"
    ⟨[resNilTags, resNilTags], none⟩ initState 0 rfl
  exact ⟨h.1, h.2 fun i => rfl⟩

theorem filesOf_subset (sect ts : String) (st : SinkState) :
    (filesOf sect ts st).map Prod.fst ⊆
      [mainPath sect ts, missingTagsPath sect ts, noOwnerPath sect ts] := by
  unfold filesOf
  cases hm : st.missingRows <;> cases hn : st.noOwnerRows <;>
    intro p hp <;> simp at hp <;> simp <;> tauto

theorem runTask_paths (fl : Flags) (senv : SetupEnv) (env : WriteEnv)
    (nowNs : Int) (sect : String) (pages : List Page) :
    (runTask fl senv env nowNs sect pages).map Prod.fst ⊆
      [mainPath sect (timestampOf nowNs), missingTagsPath sect (timestampOf nowNs),
       noOwnerPath sect (timestampOf nowNs)] := by
  unfold runTask
  split
  · simp
  · exact filesOf_subset sect (timestampOf nowNs) _

/-- C2 counterexample: the timestamp token is computed inside each region
task at the task's own start instant (src/main.go line 149), not once per
run: two region tasks of the same run starting one second apart name their
files with different timestamp tokens. -/
theorem timestamp_counterexample :
    timestampOf 0 ≠ timestampOf 1000000000 ∧
    (runTask flagsNone senvAllOk envAllOk 0 "regA" []).map Prod.fst =
      ["data/regA_resources_19700101_000000.csv"] ∧
    (runTask flagsNone senvAllOk envAllOk 1000000000 "regB" []).map Prod.fst =
      ["data/regB_resources_19700101_000001.csv"] :=
  ⟨by decide, by decide, by decide⟩

/-- C2 amended: the timestamp token is per region task, derived from the
task's own UTC start time: every file path one task creates carries the one
token of that task's start instant (so all files of a single task agree),
but two tasks of the same run may carry different tokens. -/
theorem timestamp_perTask (fl : Flags) (senv : SetupEnv) (env : WriteEnv)
    (nowNs : Int) (sect : String) (pages : List Page) (p : String)
    (hp : p ∈ (runTask fl senv env nowNs sect pages).map Prod.fst) :
    p = mainPath sect (timestampOf nowNs) ∨
    p = missingTagsPath sect (timestampOf nowNs) ∨
    p = noOwnerPath sect (timestampOf nowNs) := by
  have h := runTask_paths fl senv env nowNs sect pages hp
  simpa using h

/-- C2 witness: the per-task token fact at a concrete task. -/
theorem timestamp_perTask_witness :
    "data/r_resources_19700101_000000.csv" = mainPath "r" (timestampOf 0) ∨
    "data/r_resources_19700101_000000.csv" = missingTagsPath "r" (timestampOf 0) ∨
    "data/r_resources_19700101_000000.csv" = noOwnerPath "r" (timestampOf 0) :=
  timestamp_perTask flagsNone senvAllOk envAllOk 0 "r" []
    "data/r_resources_19700101_000000.csv" (by decide)

theorem fileAt_filesOf_main (sect ts : String) (st : SinkState) :
    fileAt (filesOf sect ts st) (mainPath sect ts) = some st.mainRows := by
  simp [fileAt, filesOf, List.lookup]

theorem processRecord_mainRows (fl : Flags) (env : WriteEnv) (idx : Nat)
    (nowNs : Int) (sect : String) (r : Resource) (st : SinkState) :
    (processRecord fl env idx nowNs sect r st).mainRows =
      if env.mainRowOk idx then st.mainRows ++ [makeRow nowNs sect r]
      else st.mainRows := by
  unfold processRecord
  by_cases h : env.mainRowOk idx = true
  · rw [h]
    simp only [Bool.not_true, Bool.false_eq_true, if_false, if_true]
    split_ifs <;> rfl
  · rw [Bool.not_eq_true] at h
    simp [h]

theorem processAll_mainRows_indep (fl fl2 : Flags) (env : WriteEnv)
    (nowNs : Int) (sect : String) :
    ∀ (rs : List Resource) (idx : Nat) (st st2 : SinkState),
      st.mainRows = st2.mainRows →
      (processAll fl env nowNs sect rs idx st).mainRows =
        (processAll fl2 env nowNs sect rs idx st2).mainRows := by
  intro rs
  induction rs with
  | nil => intro idx st st2 h; exact h
  | cons r rest ih =>
    intro idx st st2 h
    show (processAll fl env nowNs sect rest (idx + 1) _).mainRows =
      (processAll fl2 env nowNs sect rest (idx + 1) _).mainRows
    apply ih
    rw [processRecord_mainRows, processRecord_mainRows, h]

theorem pageLoop_mainRows_indep (fl fl2 : Flags) (env : WriteEnv)
    (nowNs : Int) (sect : String) :
    ∀ (pages : List Page) (cur : Option String) (idx : Nat) (st st2 : SinkState),
      st.mainRows = st2.mainRows →
      (pageLoop fl env nowNs sect pages cur idx st).2.mainRows =
        (pageLoop fl2 env nowNs sect pages cur idx st2).2.mainRows := by
  intro pages
  induction pages with
  | nil => intro cur idx st st2 h; exact h
  | cons p ps ih =>
    intro cur idx st st2 h
    have h1 := processAll_mainRows_indep fl fl2 env nowNs sect p.items idx st st2 h
    cases hc : p.nextCursor with
    | none => simpa [pageLoop, hc] using h1
    | some c =>
      simp only [pageLoop, hc]
      exact ih (some c) (idx + p.items.length) _ _ h1

theorem taskState_mainRows_indep (fl : Flags) (senv : SetupEnv) (env : WriteEnv)
    (nowNs : Int) (sect : String) (pages : List Page)
    (h1 : senv.missingCreateOk = true) (h2 : senv.noOwnerCreateOk = true)
    (h3 : senv.missingHeaderOk = true) (h4 : senv.noOwnerHeaderOk = true) :
    (taskState fl senv env nowNs sect pages).mainRows =
      (taskState flagsNone senv env nowNs sect pages).mainRows := by
  unfold taskState
  simp only [h1, h2, h3, h4, Bool.not_true, Bool.and_false, Bool.false_eq_true, if_false,
    flagsNone, Bool.false_and, Bool.and_self]
  by_cases hm : senv.mainHeaderOk
  · simp only [hm, Bool.not_true, Bool.false_eq_true, if_false]
    apply pageLoop_mainRows_indep
    split_ifs <;> rfl
  · rw [Bool.not_eq_true] at hm
    simp only [hm, Bool.not_false, if_true]
    split_ifs <;> rfl

/-- C5 counterexample: with --missing-tags on, a failure to create the
missing-tags file aborts the region task before the main header is written,
so on the same one-record input the main report holds a header and a data
row with the flag off but is empty with the flag on: the flags can affect
the main report's contents and completion. -/
theorem flags_additive_counterexample :
    fileAt (runTask flagsNone senvMissingFail envAllOk 0 "r" pg1)
        (mainPath "r" (timestampOf 0)) =
      some [headers, makeRow 0 "r" resNilTags] ∧
    fileAt (runTask flagsMT senvMissingFail envAllOk 0 "r" pg1)
        (mainPath "r" (timestampOf 0)) = some [] :=
  ⟨by decide, by decide⟩

/-- C5 amended: the flags are purely additive provided the flag-gated sink
creations and header writes succeed: then the main report's contents are
identical whatever the flags, for every record stream and every pattern of
per-row write outcomes — the flags only gate the exception sinks.  When a
flag-gated sink creation or header write fails, the whole region task
aborts and the main report is cut short. -/
theorem flags_additive (fl : Flags) (senv : SetupEnv) (env : WriteEnv)
    (nowNs : Int) (sect : String) (pages : List Page)
    (h1 : senv.missingCreateOk = true) (h2 : senv.noOwnerCreateOk = true)
    (h3 : senv.missingHeaderOk = true) (h4 : senv.noOwnerHeaderOk = true) :
    fileAt (runTask fl senv env nowNs sect pages) (mainPath sect (timestampOf nowNs)) =
      fileAt (runTask flagsNone senv env nowNs sect pages)
        (mainPath sect (timestampOf nowNs)) := by
  unfold runTask
  by_cases hc : senv.mainCreateOk
  · simp only [hc, Bool.not_true, Bool.false_eq_true, if_false]
    rw [fileAt_filesOf_main, fileAt_filesOf_main,
      taskState_mainRows_indep fl senv env nowNs sect pages h1 h2 h3 h4]
  · rw [Bool.not_eq_true] at hc
    simp [hc]

/-- C5 witness: additivity applied to a concrete one-record stream with
both flags on versus off. -/
theorem flags_additive_witness :
    fileAt (runTask flagsBoth senvAllOk envAllOk 0 "r" pg1)
        (mainPath "r" (timestampOf 0)) =
      fileAt (runTask flagsNone senvAllOk envAllOk 0 "r" pg1)
        (mainPath "r" (timestampOf 0)) :=
  flags_additive flagsBoth senvAllOk envAllOk 0 "r" pg1 rfl rfl rfl rfl

theorem makeRow_length (nowNs : Int) (sect : String) (r : Resource) :
    (makeRow nowNs sect r).length = 11 := rfl

theorem sinkGood_headers (nowNs : Int) (sect : String) :
    sinkGood nowNs sect [headers] := ⟨[], rfl, by simp⟩

theorem sinkGood_append (nowNs : Int) (sect : String) (rows : List (List String))
    (r : Resource) (h : sinkGood nowNs sect rows) :
    sinkGood nowNs sect (rows ++ [makeRow nowNs sect r]) := by
  obtain ⟨t, ht, hall⟩ := h
  refine ⟨t ++ [makeRow nowNs sect r], by simp [ht], ?_⟩
  intro row hrow
  rcases List.mem_append.mp hrow with hmem | hmem
  · exact hall row hmem
  · rw [List.mem_singleton] at hmem
    exact ⟨r, hmem⟩

theorem processRecord_missingRows (fl : Flags) (env : WriteEnv) (idx : Nat)
    (nowNs : Int) (sect : String) (r : Resource) (st : SinkState) :
    (processRecord fl env idx nowNs sect r st).missingRows = st.missingRows ∨
    (processRecord fl env idx nowNs sect r st).missingRows =
      st.missingRows.map (· ++ [makeRow nowNs sect r]) := by
  unfold processRecord
  split_ifs <;> simp [appendMain, appendMissing, appendNoOwner]

theorem processRecord_noOwnerRows (fl : Flags) (env : WriteEnv) (idx : Nat)
    (nowNs : Int) (sect : String) (r : Resource) (st : SinkState) :
    (processRecord fl env idx nowNs sect r st).noOwnerRows = st.noOwnerRows ∨
    (processRecord fl env idx nowNs sect r st).noOwnerRows =
      st.noOwnerRows.map (· ++ [makeRow nowNs sect r]) := by
  unfold processRecord
  split_ifs <;> simp [appendMain, appendMissing, appendNoOwner]

theorem stateGood_processRecord (fl : Flags) (env : WriteEnv) (idx : Nat)
    (nowNs : Int) (sect : String) (r : Resource) (st : SinkState)
    (h : stateGood nowNs sect st) :
    stateGood nowNs sect (processRecord fl env idx nowNs sect r st) := by
  obtain ⟨hmain, hmiss, hno⟩ := h
  refine ⟨?_, ?_, ?_⟩
  · rw [processRecord_mainRows]
    split_ifs with hc
    · exact sinkGood_append nowNs sect st.mainRows r hmain
    · exact hmain
  · intro rs hrs
    rcases processRecord_missingRows fl env idx nowNs sect r st with he | he
    · rw [he] at hrs; exact hmiss rs hrs
    · rw [he] at hrs
      cases hm : st.missingRows with
      | none => rw [hm] at hrs; simp at hrs
      | some mrs =>
        rw [hm] at hrs
        have hrs2 : mrs ++ [makeRow nowNs sect r] = rs := by simpa using hrs
        rw [← hrs2]
        exact sinkGood_append nowNs sect mrs r (hmiss mrs hm)
  · intro rs hrs
    rcases processRecord_noOwnerRows fl env idx nowNs sect r st with he | he
    · rw [he] at hrs; exact hno rs hrs
    · rw [he] at hrs
      cases hm : st.noOwnerRows with
      | none => rw [hm] at hrs; simp at hrs
      | some nrs =>
        rw [hm] at hrs
        have hrs2 : nrs ++ [makeRow nowNs sect r] = rs := by simpa using hrs
        rw [← hrs2]
        exact sinkGood_append nowNs sect nrs r (hno nrs hm)

theorem stateGood_processAll (fl : Flags) (env : WriteEnv) (nowNs : Int)
    (sect : String) :
    ∀ (rs : List Resource) (idx : Nat) (st : SinkState),
      stateGood nowNs sect st →
      stateGood nowNs sect (processAll fl env nowNs sect rs idx st) := by
  intro rs
  induction rs with
  | nil => intro idx st h; exact h
  | cons r rest ih =>
    intro idx st h
    exact ih (idx + 1) _ (stateGood_processRecord fl env idx nowNs sect r st h)

theorem stateGood_pageLoop (fl : Flags) (env : WriteEnv) (nowNs : Int)
    (sect : String) :
    ∀ (pages : List Page) (cur : Option String) (idx : Nat) (st : SinkState),
      stateGood nowNs sect st →
      stateGood nowNs sect (pageLoop fl env nowNs sect pages cur idx st).2 := by
  intro pages
  induction pages with
  | nil => intro cur idx st h; exact h
  | cons p ps ih =>
    intro cur idx st h
    have h1 := stateGood_processAll fl env nowNs sect p.items idx st h
    cases hc : p.nextCursor with
    | none => simpa [pageLoop, hc] using h1
    | some c =>
      simp only [pageLoop, hc]
      exact ih (some c) (idx + p.items.length) _ h1

theorem taskState_good (fl : Flags) (senv : SetupEnv) (env : WriteEnv)
    (nowNs : Int) (sect : String) (pages : List Page)
    (h2 : senv.missingCreateOk = true) (h3 : senv.noOwnerCreateOk = true)
    (h4 : senv.mainHeaderOk = true) (h5 : senv.missingHeaderOk = true)
    (h6 : senv.noOwnerHeaderOk = true) :
    stateGood nowNs sect (taskState fl senv env nowNs sect pages) := by
  unfold taskState
  simp only [h2, h3, h4, h5, h6, Bool.not_true, Bool.and_false, Bool.false_eq_true,
    if_false]
  apply stateGood_pageLoop
  split_ifs with hm hn hn <;>
    refine ⟨⟨[], rfl, by simp⟩, ?_, ?_⟩ <;>
      intro rs hrs <;>
        simp [initState, appendMain, appendMissing, appendNoOwner, hm] at hrs <;>
          exact (hrs ▸ sinkGood_headers nowNs sect)

theorem filesOf_good (nowNs : Int) (sect ts : String) (st : SinkState)
    (h : stateGood nowNs sect st) :
    ∀ f ∈ filesOf sect ts st, sinkGood nowNs sect f.2 := by
  obtain ⟨hmain, hmiss, hno⟩ := h
  intro f hf
  unfold filesOf at hf
  cases hm : st.missingRows with
  | none =>
    cases hn : st.noOwnerRows with
    | none =>
      rw [hm, hn] at hf
      simp at hf
      rw [hf]
      exact hmain
    | some nrs =>
      rw [hm, hn] at hf
      simp at hf
      rcases hf with hf | hf <;> rw [hf]
      · exact hmain
      · exact hno nrs hn
  | some mrs =>
    cases hn : st.noOwnerRows with
    | none =>
      rw [hm, hn] at hf
      simp at hf
      rcases hf with hf | hf <;> rw [hf]
      · exact hmain
      · exact hmiss mrs hm
    | some nrs =>
      rw [hm, hn] at hf
      simp at hf
      rcases hf with hf | hf | hf <;> rw [hf]
      · exact hmain
      · exact hmiss mrs hm
      · exact hno nrs hn

/-- C8: when setup succeeds (files created and headers written), every file
a region task produces has the fixed 11-column header as its first row,
followed only by resource data rows — the header is written exactly once,
before any data — and every row of every sink has exactly 11 fields. -/
theorem header_and_width (fl : Flags) (senv : SetupEnv) (env : WriteEnv)
    (nowNs : Int) (sect : String) (pages : List Page)
    (h1 : senv.mainCreateOk = true) (h2 : senv.missingCreateOk = true)
    (h3 : senv.noOwnerCreateOk = true) (h4 : senv.mainHeaderOk = true)
    (h5 : senv.missingHeaderOk = true) (h6 : senv.noOwnerHeaderOk = true) :
    headers.length = 11 ∧
    ∀ f ∈ runTask fl senv env nowNs sect pages,
      ∃ dataRows, f.2 = headers :: dataRows ∧
        (∀ row ∈ dataRows, ∃ r : Resource, row = makeRow nowNs sect r) ∧
        ∀ row ∈ f.2, row.length = 11 := by
  refine ⟨rfl, ?_⟩
  intro f hf
  rw [runTask, h1] at hf
  simp only [Bool.not_true, Bool.false_eq_true, if_false] at hf
  have hgood := filesOf_good nowNs sect (timestampOf nowNs)
    (taskState fl senv env nowNs sect pages)
    (taskState_good fl senv env nowNs sect pages h2 h3 h4 h5 h6) f hf
  obtain ⟨t, ht, hall⟩ := hgood
  refine ⟨t, ht, hall, ?_⟩
  intro row hrow
  rw [ht] at hrow
  rcases List.mem_cons.mp hrow with hh | hh
  · rw [hh]; rfl
  · obtain ⟨r, hr⟩ := hall row hh
    rw [hr]
    exact makeRow_length nowNs sect r

/-- C8 witness: the header/width fact at a concrete one-record task. -/
theorem header_and_width_witness :
    ∃ dataRows,
      (("data/r_resources_19700101_000000.csv" : String),
        ([headers, makeRow 0 "r" resNilTags] : List (List String))).2 =
          headers :: dataRows ∧
      (∀ row ∈ dataRows, ∃ r : Resource, row = makeRow 0 "r" r) ∧
      ∀ row ∈ (("data/r_resources_19700101_000000.csv" : String),
        ([headers, makeRow 0 "r" resNilTags] : List (List String))).2,
          row.length = 11 :=
  (header_and_width flagsNone senvAllOk envAllOk 0 "r" pg1
    rfl rfl rfl rfl rfl rfl).2
    ("data/r_resources_19700101_000000.csv", [headers, makeRow 0 "r" resNilTags])
    (by decide)
